import Mathlib

/-!
A shallow embedding of the data-transformation core of the deseq2-dashboard
repository: the file catalog, result loader, comparison merger and DEG
extractor of `utils.py`, and the Venn-diagram overlap callback
`update_venn_diagram` of `app.py`, together with theorems settling the
specification claims about them.

Python floats are modelled as rationals, with `Option ℚ` for cells that may be
missing (NaN); tables are lists of records plus an explicit header list; the
process-wide cache is threaded explicitly as an association list; the
filesystem is an explicit map from path strings to raw file contents.
-/

/-- ASCII digit test, the character-level content of Python `str.isdigit` on
the ASCII inputs this program handles. -/
def isAsciiDigit (c : Char) : Bool := decide ('0' ≤ c) && decide (c ≤ '9')

/-- Python `name.split(sep, 1)`: split at the first occurrence of `sep`,
returning the parts before and after it, or `none` when `sep` does not occur
(in which case Python returns the one-element list `[name]`). -/
def splitFirst (sep : Char) : List Char → Option (List Char × List Char)
  | [] => none
  | c :: rest =>
    if c = sep then some ([], rest)
    else (splitFirst sep rest).map (fun p => (c :: p.1, p.2))

/-- Python substring test `pat in s`. -/
def containsSub (pat : List Char) : List Char → Bool
  | [] => pat.isEmpty
  | c :: rest => pat.isPrefixOf (c :: rest) || containsSub pat rest

/-- Auxiliary scanner for `replaceAll`; the `Nat` argument counts characters
still to be consumed silently because a replacement was just emitted. -/
def replaceAllAux (pat rep : List Char) : Nat → List Char → List Char
  | _, [] => []
  | Nat.succ n, _ :: rest => replaceAllAux pat rep n rest
  | 0, c :: rest =>
    if !pat.isEmpty && pat.isPrefixOf (c :: rest) then
      rep ++ replaceAllAux pat rep (pat.length - 1) rest
    else c :: replaceAllAux pat rep 0 rest

/-- Python `s.replace(pat, rep)`: replace every occurrence of `pat`, scanning
left to right without overlap. -/
def replaceAll (pat rep s : List Char) : List Char := replaceAllAux pat rep 0 s

/-- Index of the last occurrence of `c`, as an `Option` (Python `str.rfind`). -/
def lastIndexOf (c : Char) : List Char → Option Nat
  | [] => none
  | a :: rest =>
    match lastIndexOf c rest with
    | some i => some (i + 1)
    | none => if a = c then some 0 else none

/-- The root part of Python `os.path.splitext` (equally of `pathlib.Path.stem`)
applied to a file name: drop the part from the last dot on, unless some
character before the last dot is not itself a dot. -/
def splitextRoot (name : List Char) : List Char :=
  match lastIndexOf '.' name with
  | none => name
  | some i => if (name.take i).any (fun a => a != '.') then name.take i else name

/-- Python `os.path.basename`: the part of a path after the last `/`. -/
def basenameChars (p : List Char) : List Char :=
  (p.reverse.takeWhile (fun c => c != '/')).reverse

/-- Code-point lexicographic comparison of character lists: the order Python
uses to compare and sort strings. -/
def lexLe : List Char → List Char → Bool
  | [], _ => true
  | _ :: _, [] => false
  | a :: s, b :: t =>
    if a.toNat < b.toNat then true
    else if b.toNat < a.toNat then false
    else lexLe s t

/-- A raw numeric cell of a parsed TSV file, before sanitization: pandas reads
a missing cell as NaN, and a file may also contain positive or negative
infinities, which `load_deseq2_file` replaces by NaN. -/
inductive RawVal where
  | na
  | posInf
  | negInf
  | val (q : ℚ)
deriving DecidableEq, Repr

/-- A raw row of a DESeq2 TSV file, one cell per recognized column. A missing
gene cell is read by pandas as NaN, hence the `Option`. -/
structure RawRow where
  gene_symbol : Option String
  baseMean : RawVal
  log2FoldChange : RawVal
  lfcSE : RawVal
  stat : RawVal
  pvalue : RawVal
  padj : RawVal
deriving DecidableEq, Repr

/-- A parsed TSV file: its header (which recognized columns are present) and
its rows. -/
structure RawTable where
  cols : List String
  rows : List RawRow
deriving DecidableEq, Repr

/-- A sanitized row of a loaded comparison table: numeric cells are `Option ℚ`
with `none` standing for NaN, and the gene identifier has been coerced to a
string (`astype(str)` renders a NaN cell as the literal string "nan"). -/
structure Row where
  gene_symbol : String
  baseMean : Option ℚ
  log2FoldChange : Option ℚ
  lfcSE : Option ℚ
  stat : Option ℚ
  pvalue : Option ℚ
  padj : Option ℚ
deriving DecidableEq, Repr

/-- A loaded comparison table (`pandas.DataFrame` restricted to the recognized
DESeq2 columns): the header list and the sanitized rows. -/
structure DataFrame where
  cols : List String
  rows : List Row
deriving DecidableEq, Repr

/-- The gene-identifier column name. -/
def col_gene : String := "gene_symbol"

/-- The log2 fold-change column name. -/
def col_lfc : String := "log2FoldChange"

/-- The adjusted-significance column name. -/
def col_padj : String := "padj"

/-- The raw-significance column name. -/
def col_pvalue : String := "pvalue"

/-- The columns `load_deseq2_file` requires in a file header. -/
def required_cols : List String := [col_gene, col_lfc]

/-- The string rendering of a missing value, excluded from DEG output. -/
def nanStr : String := "nan"

/-- The empty string (a falsy dropdown value in the Dash callbacks). -/
def emptyStr : String := ""

/-- Sanitization of one numeric cell by `load_deseq2_file`: `inf` and `-inf`
are replaced with NA, so only finite values survive. -/
def sanitizeVal : RawVal → Option ℚ
  | .na => none
  | .posInf => none
  | .negInf => none
  | .val q => some q

/-- The string coercion `df['gene_symbol'].astype(str)` applied to one cell:
pandas renders a NaN cell as the literal string "nan". -/
def geneToString : Option String → String
  | none => nanStr
  | some s => s

/-- Sanitization of one row by `load_deseq2_file`. -/
def parseRow (r : RawRow) : Row :=
  { gene_symbol := geneToString r.gene_symbol
    baseMean := sanitizeVal r.baseMean
    log2FoldChange := sanitizeVal r.log2FoldChange
    lfcSE := sanitizeVal r.lfcSE
    stat := sanitizeVal r.stat
    pvalue := sanitizeVal r.pvalue
    padj := sanitizeVal r.padj }

/-- Parsing plus sanitization of a whole file. -/
def parseTable (t : RawTable) : DataFrame :=
  ⟨t.cols, t.rows.map parseRow⟩

/-- The filesystem, as seen by the loader: `none` means the path does not
exist (`os.path.exists` is false), `some` gives the parsed file contents. -/
abbrev FS : Type := String → Option RawTable

/-- The process-wide cache `_data_cache`, keyed by exact path string. -/
abbrev Cache : Type := List (String × DataFrame)

/-- The failures `load_deseq2_file` can raise: `FileNotFoundError` when the
path does not exist, `ValueError` when a required column is missing. -/
inductive LoadError where
  | notFound
  | schemaError
deriving DecidableEq, Repr

/-- Model of `utils.load_deseq2_file`: return a copy of the cached table on a
cache hit; otherwise check existence, parse, validate the required columns,
sanitize non-finite values, coerce the gene column to strings, and cache a
copy of the result. The cache is threaded explicitly and returned. -/
def load_deseq2_file (fs : FS) (cache : Cache) (file_path : String)
    (use_cache : Bool) : Except LoadError (DataFrame × Cache) :=
  match (if use_cache then List.lookup file_path cache else none) with
  | some df => .ok (df, cache)
  | none =>
    match fs file_path with
    | none => .error .notFound
    | some raw =>
      if (required_cols.filter (fun c => !(raw.cols.contains c))).isEmpty then
        .ok (parseTable raw,
          if use_cache then (file_path, parseTable raw) :: cache else cache)
      else .error .schemaError

/-- Model of `utils.clear_cache`. -/
def clear_cache (_cache : Cache) : Cache := []

/-- The row block of `pd.merge(df1, df2, on="gene_symbol", how="inner")`:
every pair of rows agreeing on the gene identifier, ordered by the left
table's rows. The two suffixed column groups are kept as the two pair
components. -/
def innerMergeRows (rows1 rows2 : List Row) : List (Row × Row) :=
  rows1.flatMap (fun a =>
    (rows2.filter (fun b => b.gene_symbol == a.gene_symbol)).map (fun b => (a, b)))

/-- Model of `utils.merge_comparisons`: load both files through the cache and
inner-join their rows on the gene identifier. -/
def merge_comparisons (fs : FS) (cache : Cache) (file_path1 file_path2 : String) :
    Except LoadError (List (Row × Row) × Cache) :=
  match load_deseq2_file fs cache file_path1 true with
  | .error e => .error e
  | .ok (df1, c1) =>
    match load_deseq2_file fs c1 file_path2 true with
    | .error e => .error e
    | .ok (df2, c2) => .ok (innerMergeRows df1.rows df2.rows, c2)

/-- The row mask of `utils.extract_degs`: the significance cell is non-missing
and strictly below the significance threshold, and the fold-change cell is
non-missing with absolute value strictly above the fold-change threshold
(in pandas a NaN cell compares false, conjoined there with `notna`). -/
def degMask (sig lfc : Option ℚ) (padj_threshold lfc_threshold : ℚ) : Bool :=
  (match sig with
   | some p => decide (p < padj_threshold)
   | none => false) &&
  (match lfc with
   | some l => decide (|l| > lfc_threshold)
   | none => false)

/-- Model of `utils.extract_degs`: load the table, select the significance
column (`padj` if present, else `pvalue` if present, else select nothing),
filter by `degMask`, and return the set of qualifying gene identifiers with
the literal "nan" filtered out (the identifiers are already strings, so
`pd.notna` is vacuous and `str` is the identity there). -/
def extract_degs (fs : FS) (cache : Cache) (file_path : String)
    (padj_threshold lfc_threshold : ℚ) : Except LoadError (Finset String × Cache) :=
  match load_deseq2_file fs cache file_path true with
  | .error e => .error e
  | .ok (df, c) =>
    .ok (((if df.cols.contains col_padj then
            (df.rows.filter
              (fun x => degMask x.padj x.log2FoldChange padj_threshold lfc_threshold)).map
              (fun x => x.gene_symbol)
          else if df.cols.contains col_pvalue then
            (df.rows.filter
              (fun x => degMask x.pvalue x.log2FoldChange padj_threshold lfc_threshold)).map
              (fun x => x.gene_symbol)
          else []).filter (fun g => g != nanStr)).toFinset, c)

/-- The pattern "_results" removed from display names. -/
def resultsPat : List Char := "_results".toList

/-- The pattern "_vs_" rewritten in display names. -/
def vsPat : List Char := "_vs_".toList

/-- The replacement " vs " for `vsPat`. -/
def vsRep : List Char := " vs ".toList

/-- The ellipsis marker appended on truncation. -/
def dotsEll : List Char := "...".toList

/-- The date-prefix handling of `clean_display_name`, as the code performs it:
split at the first underscore and accept the front part when it is a nonempty
all-digit string of length 8 (`parts[0].isdigit() and len(parts[0]) == 8`).
Returns the optional date digits and the remaining name. -/
def dateSplit (name : List Char) : Option (List Char) × List Char :=
  match splitFirst '_' name with
  | some p =>
    if !p.1.isEmpty && p.1.all isAsciiDigit && p.1.length == 8 then (some p.1, p.2)
    else (none, name)
  | none => (none, name)

/-- The reformatting `f"{d[:4]}-{d[4:6]}-{d[6:8]}"` of an 8-digit date. -/
def formatDate (d : List Char) : List Char :=
  d.take 4 ++ '-' :: ((d.drop 4).take 2 ++ '-' :: (d.drop 6).take 2)

/-- Model of the nested helper `clean_display_name` of
`utils.discover_deseq2_files`: remove "_results" when present, extract and
reformat an 8-digit date prefix, rewrite "_vs_" then underscores, prepend the
formatted date, and truncate to 52 characters plus an ellipsis when the result
exceeds 55 characters. -/
def clean_display_name_chars (name0 : List Char) : List Char :=
  let name1 := if containsSub resultsPat name0 then replaceAll resultsPat [] name0 else name0
  let ds := dateSplit name1
  let name2 := replaceAll vsPat vsRep ds.2
  let name3 := replaceAll ['_'] [' '] name2
  let name4 :=
    match ds.1 with
    | some d => formatDate d ++ ':' :: ' ' :: name3
    | none => name3
  if name4.length > 55 then name4.take 52 ++ dotsEll else name4

/-- String-level wrapper of `clean_display_name_chars`. -/
def clean_display_name (name : String) : String :=
  ⟨clean_display_name_chars name.toList⟩

/-- The stem-to-name transformation inside `utils.get_file_display_name`:
when "_results" occurs in the stem, return the part after the first underscore
with every "_results" removed; otherwise return the stem unchanged. -/
def gfdnTransform (name : List Char) : List Char :=
  if containsSub resultsPat name then
    match splitFirst '_' name with
    | some p => replaceAll resultsPat [] p.2
    | none => name
  else name

/-- Model of `utils.get_file_display_name`: take the stem of the path's
basename and apply `gfdnTransform`. -/
def get_file_display_name (file_path : String) : String :=
  ⟨gfdnTransform (splitextRoot (basenameChars file_path.toList))⟩

/-- The fixed extension the catalog scans for. -/
def tsvExt : List Char := ".tsv".toList

/-- The category tag of the first scanned subdirectory. -/
def catPrimary : String := "primary"

/-- The category tag of the second scanned subdirectory. -/
def catSecondary : String := "secondary"

/-- Lexicographic string order used to model Python `sorted` on file paths of
a single directory (where path order coincides with filename order). -/
def fileLe (a b : String) : Prop := lexLe a.toList b.toList = true

instance instDecFileLe : DecidableRel fileLe := fun a b =>
  inferInstanceAs (Decidable (lexLe a.toList b.toList = true))

/-- One directory scan of `discover_deseq2_files`: a missing directory
(`none`) contributes nothing; otherwise the `.tsv` files are taken in sorted
order and tagged with the category and the cleaned display name of the stem. -/
def discoverScan (listing : Option (List String)) (category : String) :
    List (String × String × String) :=
  match listing with
  | none => []
  | some names =>
    ((names.filter (fun f => tsvExt.isSuffixOf f.toList)).insertionSort fileLe).map
      (fun f => (f, category, clean_display_name ⟨splitextRoot f.toList⟩))

/-- Model of `utils.discover_deseq2_files`: scan the primary directory, then
the secondary directory. Each argument is the directory listing, or `none`
when the directory does not exist. -/
def discover_deseq2_files (primaryDir secondaryDir : Option (List String)) :
    List (String × String × String) :=
  discoverScan primaryDir catPrimary ++ discoverScan secondaryDir catSecondary

/-- A default placeholder dataframe for out-of-range heap reads. -/
def emptyDF : DataFrame := ⟨[], []⟩

/-- Object-identity model of the loader's cache for the copy-semantics claim:
`cells` is a heap of dataframe objects addressed by allocation index, and
`cacheIdx` is `_data_cache`, holding the index of the object each path owns. -/
structure HeapState where
  cells : List DataFrame
  cacheIdx : List (String × Nat)
deriving DecidableEq, Repr

/-- Model of `utils.load_deseq2_file` at object granularity: a cache hit
allocates a fresh copy of the cached object and returns its index
(`_data_cache[file_path].copy()`); a cache miss parses the file, allocates the
resulting object, caches a distinct copy of it (`df.copy()`), and returns the
original. -/
def load_deseq2_file_heap (fs : FS) (s : HeapState) (file_path : String) :
    Except LoadError (Nat × HeapState) :=
  match List.lookup file_path s.cacheIdx with
  | some i =>
    .ok (s.cells.length, ⟨s.cells ++ [s.cells.getD i emptyDF], s.cacheIdx⟩)
  | none =>
    match fs file_path with
    | none => .error .notFound
    | some raw =>
      if (required_cols.filter (fun c => !(raw.cols.contains c))).isEmpty then
        .ok (s.cells.length,
          ⟨s.cells ++ [parseTable raw, parseTable raw],
            (file_path, s.cells.length + 1) :: s.cacheIdx⟩)
      else .error .schemaError

/-- In-place mutation of the dataframe object at index `i` (e.g. a caller
adding a derived column to the table it was handed). -/
def mutateCell (s : HeapState) (i : Nat) (f : DataFrame → DataFrame) : HeapState :=
  ⟨s.cells.set i (f (s.cells.getD i emptyDF)), s.cacheIdx⟩

/-- The two-way overlap partition of `update_venn_diagram`, with the field
names of its `overlaps_data` dictionary. -/
structure Venn2Data where
  only_1 : Finset String
  only_2 : Finset String
  overlap : Finset String
deriving DecidableEq

/-- The three-way overlap partition of `update_venn_diagram`, with the field
names of its `overlaps_data` dictionary. -/
structure Venn3Data where
  only_1 : Finset String
  only_2 : Finset String
  only_3 : Finset String
  overlap_12 : Finset String
  overlap_13 : Finset String
  overlap_23 : Finset String
  overlap_all : Finset String

/-- The two-way overlap computation of `update_venn_diagram`. -/
def venn2_overlaps (degs1 degs2 : Finset String) : Venn2Data :=
  { only_1 := degs1 \ degs2
    only_2 := degs2 \ degs1
    overlap := degs1 ∩ degs2 }

/-- The three-way overlap computation of `update_venn_diagram`. -/
def venn3_overlaps (degs1 degs2 degs3 : Finset String) : Venn3Data :=
  { only_1 := (degs1 \ degs2) \ degs3
    only_2 := (degs2 \ degs1) \ degs3
    only_3 := (degs3 \ degs1) \ degs2
    overlap_12 := (degs1 ∩ degs2) \ degs3
    overlap_13 := (degs1 ∩ degs3) \ degs2
    overlap_23 := (degs2 ∩ degs3) \ degs1
    overlap_all := degs1 ∩ degs2 ∩ degs3 }

/-- The outcome of the `update_venn_diagram` callback: a validation alert with
its message (and no partition data), an error banner from the `except` clause,
or the computed overlap partition. -/
inductive VennOutcome where
  | reject (msg : String)
  | errorBanner
  | ok2 (d : Venn2Data)
  | ok3 (d : Venn3Data)

/-- Python falsiness of an optional dropdown value (`not file_path`): `None`
and the empty string are falsy. -/
def isFalsyStr : Option String → Bool
  | none => true
  | some s => s == emptyStr

/-- Validation message for a missing first or second selection. -/
def msgAtLeastTwo : String := "Please select at least two comparisons"

/-- Validation message for a missing third selection. -/
def msgAllThree : String := "Please select all three comparisons"

/-- Validation message for duplicate selections among three. -/
def msgThreeDifferent : String := "Please select three different comparisons"

/-- Validation message for duplicate selections among two. -/
def msgTwoDifferent : String := "Please select two different comparisons"

/-- Model of `app.update_venn_diagram`: validate the selections (missing
first or second file; missing third file when three are requested; duplicate
selections), default the thresholds, extract the DEG sets, and compute the
two- or three-way overlap partition. Exceptions from extraction (and the
`NameError` on an out-of-range comparison count reaching the three-way branch
with `degs3` unbound) surface as the error banner of the `except` clause. -/
def update_venn_diagram (fs : FS) (cache : Cache) (n_comparisons : Nat)
    (file_path1 file_path2 : Option String) (fdr_threshold lfc_threshold : Option ℚ)
    (file_path3 : Option String) : VennOutcome :=
  if isFalsyStr file_path1 || isFalsyStr file_path2 then .reject msgAtLeastTwo
  else if n_comparisons == 3 && isFalsyStr file_path3 then .reject msgAllThree
  else if n_comparisons == 3 &&
      ([file_path1, file_path2, file_path3].dedup.length != 3) then
    .reject msgThreeDifferent
  else if !(n_comparisons == 3) && file_path1 == file_path2 then
    .reject msgTwoDifferent
  else
    let fdr := fdr_threshold.getD (mkRat 1 20)
    let lfc := lfc_threshold.getD 1
    match extract_degs fs cache (file_path1.getD emptyStr) fdr lfc with
    | .error _ => .errorBanner
    | .ok (degs1, c1) =>
      match extract_degs fs c1 (file_path2.getD emptyStr) fdr lfc with
      | .error _ => .errorBanner
      | .ok (degs2, c2) =>
        if n_comparisons == 3 then
          if isFalsyStr file_path3 then .reject msgAllThree
          else
            match extract_degs fs c2 (file_path3.getD emptyStr) fdr lfc with
            | .error _ => .errorBanner
            | .ok (degs3, _) => .ok3 (venn3_overlaps degs1 degs2 degs3)
        else if n_comparisons == 2 then .ok2 (venn2_overlaps degs1 degs2)
        else .errorBanner

/-- The date-prefix condition as the specification words it: the name begins
with an 8-digit date prefix followed by an underscore; on success the prefix
digits and the remainder after the underscore are returned. -/
def dateSplitPrefix (name : List Char) : Option (List Char) × List Char :=
  if (name.take 8).length == 8 && (name.take 8).all isAsciiDigit &&
      ((name.drop 8).head? == some '_') then
    (some (name.take 8), name.drop 9)
  else (none, name)

/-- The catalog display-name derivation with the amendment the code forces:
remove every occurrence of "_results" (not only a trailing suffix), then
reformat a leading 8-digit date prefix followed by an underscore as
"YYYY-MM-DD: " applied to the remainder, rewrite "_vs_" then the remaining
underscores, and truncate to 52 characters plus an ellipsis when longer than
55 characters. -/
def clean_display_name_amended (name0 : List Char) : List Char :=
  let name1 := replaceAll resultsPat [] name0
  let ds := dateSplitPrefix name1
  let name2 := replaceAll vsPat vsRep ds.2
  let name3 := replaceAll ['_'] [' '] name2
  let name4 :=
    match ds.1 with
    | some d => formatDate d ++ ':' :: ' ' :: name3
    | none => name3
  if name4.length > 55 then name4.take 52 ++ dotsEll else name4

/-- The catalog display-name derivation exactly as the claim states it: strip
a trailing "_results" suffix only, then proceed as above. -/
def clean_display_name_claimed (name0 : List Char) : List Char :=
  let name1 := if resultsPat.isSuffixOf name0 then
      name0.take (name0.length - resultsPat.length)
    else name0
  let ds := dateSplitPrefix name1
  let name2 := replaceAll vsPat vsRep ds.2
  let name3 := replaceAll ['_'] [' '] name2
  let name4 :=
    match ds.1 with
    | some d => formatDate d ++ ':' :: ' ' :: name3
    | none => name3
  if name4.length > 55 then name4.take 52 ++ dotsEll else name4

/-- Decidable equality for `Except` results, used to evaluate the model on
concrete inputs. -/
instance instDecEqExcept {e a : Type} [DecidableEq e] [DecidableEq a] :
    DecidableEq (Except e a) := fun x y =>
  match x, y with
  | .error u, .error v =>
    if h : u = v then isTrue (by rw [h])
    else isFalse (by intro hh; injection hh; exact h (by assumption))
  | .ok u, .ok v =>
    if h : u = v then isTrue (by rw [h])
    else isFalse (by intro hh; injection hh; exact h (by assumption))
  | .error _, .ok _ => isFalse (by intro hh; cases hh)
  | .ok _, .error _ => isFalse (by intro hh; cases hh)

/-- Fixture path of a well-formed two-row comparison file. -/
def pScen : String := "scen.tsv"

/-- Fixture path of a second well-formed comparison file. -/
def pOther : String := "other.tsv"

/-- Fixture path of a file whose header lacks the fold-change column. -/
def pBad : String := "bad.tsv"

/-- Fixture path of a file with a duplicated gene identifier. -/
def pDup1 : String := "dup1.tsv"

/-- Second fixture path sharing the duplicated-gene contents. -/
def pDup2 : String := "dup2.tsv"

/-- Fixture table: genes X (significant) and Y (not significant). -/
def tblScen : RawTable :=
  ⟨[col_gene, col_lfc, col_padj],
    [⟨some "X", .na, .val 2, .na, .na, .na, .val (mkRat 1 100)⟩,
     ⟨some "Y", .na, .val 3, .na, .na, .na, .val (mkRat 1 5)⟩]⟩

/-- Fixture table: genes Y and Z. -/
def tblOther : RawTable :=
  ⟨[col_gene, col_lfc, col_padj],
    [⟨some "Y", .na, .val 1, .na, .na, .na, .val (mkRat 1 100)⟩,
     ⟨some "Z", .na, .val (-2), .na, .na, .na, .val (mkRat 1 50)⟩]⟩

/-- Fixture table missing the required fold-change column. -/
def tblBad : RawTable := ⟨[col_gene, col_padj], []⟩

/-- Fixture table whose gene identifier occurs in two rows. -/
def tblDup : RawTable :=
  ⟨[col_gene, col_lfc],
    [⟨some "X", .na, .val 1, .na, .na, .na, .na⟩,
     ⟨some "X", .na, .val 2, .na, .na, .na, .na⟩]⟩

/-- Fixture filesystem binding the fixture paths to the fixture tables. -/
def fsFix : FS := fun p =>
  if p = pScen then some tblScen
  else if p = pOther then some tblOther
  else if p = pBad then some tblBad
  else if p = pDup1 then some tblDup
  else if p = pDup2 then some tblDup
  else none

/-- The loaded form of `tblScen`. -/
def dfScen : DataFrame := parseTable tblScen

/-- The loaded form of `tblOther`. -/
def dfOther : DataFrame := parseTable tblOther

/-- The loaded form of `tblDup`. -/
def dfDup : DataFrame := parseTable tblDup

/-- A cache holding the fixture table of `pScen`. -/
def cacheScen : Cache := [(pScen, dfScen)]

/-- The empty heap state. -/
def heap0 : HeapState := ⟨[], []⟩

/-- The heap state after first loading `pScen`: the returned object at index 0
and the cached copy at index 1. -/
def heap1 : HeapState := ⟨[dfScen, dfScen], [(pScen, 1)]⟩

/-- The heap state after loading `pScen` twice: a second independent copy at
index 2. -/
def heap2 : HeapState := ⟨[dfScen, dfScen, dfScen], [(pScen, 1)]⟩

/-- A destructive in-place table mutation used as a test probe. -/
def wipeDF : DataFrame → DataFrame := fun _ => emptyDF

/-- Fixture directory listing with two tsv files (unsorted) and one other
file. -/
def dirListP : List String := ["b.tsv", "a.tsv", "c.txt"]

/-- Fixture file name inside `dirListP`. -/
def aTsvName : String := "a.tsv"

/-- Fixture path exercising the standalone display-name helper. -/
def pGfdn : String := "x/20240101_foo_results.tsv"

/-- The part of the `pGfdn` stem before the first underscore. -/
def gfdnFront : List Char := "20240101".toList

/-- The part of the `pGfdn` stem after the first underscore. -/
def gfdnBack : List Char := "foo_results".toList

/-- A successful load preserves every existing cache binding. -/
lemma load_preserves_lookup {fs : FS} {cache : Cache} {q : String} {u : Bool}
    {df : DataFrame} {c' : Cache} (h : load_deseq2_file fs cache q u = .ok (df, c'))
    {p : String} {d : DataFrame} (hp : List.lookup p cache = some d) :
    List.lookup p c' = some d := by
  unfold load_deseq2_file at h
  cases hq : (if u then List.lookup q cache else none) with
  | some d0 => simp only [hq] at h; cases h; exact hp
  | none =>
    simp only [hq] at h
    cases hfs : fs q with
    | none => simp only [hfs] at h; cases h
    | some raw =>
      simp only [hfs] at h
      by_cases hm : (required_cols.filter (fun c => !(raw.cols.contains c))).isEmpty = true
      · rw [if_pos hm] at h
        cases h
        cases hu : u with
        | false => simpa [hu] using hp
        | true =>
          rw [hu] at hq
          rw [if_pos rfl] at hq
          rw [if_pos rfl]
          by_cases hpq : p = q
          · rw [hpq, hq] at hp; cases hp
          · simp [List.lookup, show (p == q) = false from beq_eq_false_iff_ne.mpr hpq]
            exact hp
      · rw [if_neg hm] at h; cases h

/-- Unfolding of the row mask into the claim's per-cell conditions. -/
lemma degMask_eq_true {sig lfc : Option ℚ} {t1 t2 : ℚ} :
    degMask sig lfc t1 t2 = true ↔
      (∃ p, sig = some p ∧ p < t1) ∧ (∃ l, lfc = some l ∧ t2 < |l|) := by
  cases sig <;> cases lfc <;> simp [degMask]

/-- With pairwise-distinct keys, at most one list element matches a given key. -/
lemma length_filter_key_le_one {α β : Type} [DecidableEq β] (f : α → β) (l : List α)
    (h : (l.map f).Nodup) (g : β) :
    (l.filter (fun x => f x == g)).length ≤ 1 := by
  induction l with
  | nil => simp
  | cons a t ih =>
    simp only [List.map_cons, List.nodup_cons] at h
    by_cases ha : (f a == g) = true
    · simp only [List.filter_cons, ha, if_true]
      have ht : t.filter (fun x => f x == g) = [] := by
        rw [List.filter_eq_nil_iff]
        intro x hx hxg
        apply h.1
        have hfx : f x = g := by simpa using hxg
        have hfa : f a = g := by simpa using ha
        rw [hfa, ← hfx]
        exact List.mem_map_of_mem f hx
      simp [ht]
    · simp only [List.filter_cons, ha, if_false]
      exact ih h.2

/-- Filters by mutually exclusive predicates jointly keep no more elements
than the filter by their disjunction. -/
lemma length_filter_disjoint_le {α : Type} (p q : α → Bool) (l : List α)
    (hpq : ∀ x, p x = true → q x = false) :
    (l.filter p).length + (l.filter q).length ≤ (l.filter (fun x => p x || q x)).length := by
  induction l with
  | nil => simp
  | cons a t ih =>
    by_cases hp : p a = true
    · simp only [List.filter_cons, hp, hpq a hp, if_true, Bool.false_eq_true, if_false,
        Bool.true_or, List.length_cons]
      omega
    · have hp' : p a = false := by revert hp; cases p a <;> simp
      by_cases hq : q a = true
      · simp only [List.filter_cons, hp', hq, if_true, Bool.false_eq_true, if_false,
          Bool.false_or, List.length_cons]
        omega
      · have hq' : q a = false := by revert hq; cases q a <;> simp
        simp only [List.filter_cons, hp', hq', Bool.false_eq_true, if_false,
          Bool.or_self]
        exact ih

/-- When the right table's gene identifiers are distinct, the inner join has
no more rows than the left table. -/
lemma innerMergeRows_length_le_left (rows1 rows2 : List Row)
    (h2 : (rows2.map Row.gene_symbol).Nodup) :
    (innerMergeRows rows1 rows2).length ≤ rows1.length := by
  induction rows1 with
  | nil => simp [innerMergeRows]
  | cons a t ih =>
    have hone := length_filter_key_le_one Row.gene_symbol rows2 h2 a.gene_symbol
    simp only [innerMergeRows, List.flatMap_cons, List.length_append, List.length_map,
      List.length_cons] at *
    omega

/-- When the left table's gene identifiers are distinct, the inner join has
no more rows than the right table. -/
lemma innerMergeRows_length_le_right (rows1 rows2 : List Row)
    (h1 : (rows1.map Row.gene_symbol).Nodup) :
    (innerMergeRows rows1 rows2).length ≤ rows2.length := by
  have key : ∀ (l1 : List Row), (l1.map Row.gene_symbol).Nodup →
      (innerMergeRows l1 rows2).length ≤
        (rows2.filter (fun b => decide (b.gene_symbol ∈ l1.map Row.gene_symbol))).length := by
    intro l1
    induction l1 with
    | nil => simp [innerMergeRows]
    | cons a t ih =>
      intro hnd
      simp only [List.map_cons, List.nodup_cons] at hnd
      have hdisj : ∀ b : Row, (b.gene_symbol == a.gene_symbol) = true →
          (decide (b.gene_symbol ∈ t.map Row.gene_symbol)) = false := by
        intro b hb
        have hba : b.gene_symbol = a.gene_symbol := by simpa using hb
        rw [decide_eq_false_iff_not]
        intro hmem
        rw [hba] at hmem
        exact hnd.1 hmem
      have hco : rows2.filter
            (fun b => (b.gene_symbol == a.gene_symbol) ||
              decide (b.gene_symbol ∈ t.map Row.gene_symbol)) =
          rows2.filter (fun b => decide (b.gene_symbol ∈ (a :: t).map Row.gene_symbol)) := by
        apply List.filter_congr
        intro b _
        rw [Bool.eq_iff_iff]
        simp [List.map_cons, List.mem_cons]
      calc (innerMergeRows (a :: t) rows2).length
          = (rows2.filter (fun b => b.gene_symbol == a.gene_symbol)).length +
              (innerMergeRows t rows2).length := by
            simp [innerMergeRows, List.flatMap_cons]
        _ ≤ (rows2.filter (fun b => b.gene_symbol == a.gene_symbol)).length +
              (rows2.filter
                (fun b => decide (b.gene_symbol ∈ t.map Row.gene_symbol))).length := by
            have := ih hnd.2
            omega
        _ ≤ (rows2.filter (fun b =>
              (b.gene_symbol == a.gene_symbol) ||
                decide (b.gene_symbol ∈ t.map Row.gene_symbol))).length :=
            length_filter_disjoint_le _ _ rows2 hdisj
        _ = (rows2.filter
              (fun b => decide (b.gene_symbol ∈ (a :: t).map Row.gene_symbol))).length := by
            rw [hco]
  exact le_trans (key rows1 h1) (List.length_filter_le _ _)

/-- Soundness of `splitFirst`: a successful split decomposes the list at the
first occurrence of the separator. -/
lemma splitFirst_some {sep : Char} {l : List Char} : ∀ {a b : List Char},
    splitFirst sep l = some (a, b) → l = a ++ sep :: b ∧ sep ∉ a := by
  induction l with
  | nil => intro a b h; cases h
  | cons c rest ih =>
    intro a b h
    unfold splitFirst at h
    by_cases hc : c = sep
    · rw [if_pos hc] at h
      cases h
      simp [hc]
    · rw [if_neg hc] at h
      cases hsp : splitFirst sep rest with
      | none => rw [hsp] at h; cases h
      | some pr =>
        obtain ⟨p1, p2⟩ := pr
        rw [hsp] at h
        simp only [Option.map_some', Option.some.injEq, Prod.mk.injEq] at h
        obtain ⟨ha, hb⟩ := h
        subst ha
        subst hb
        obtain ⟨hl, hs⟩ := ih hsp
        constructor
        · rw [List.cons_append, ← hl]
        · simp only [List.mem_cons, not_or]
          exact ⟨fun hh => hc hh.symm, hs⟩

/-- Completeness of `splitFirst` on a list decomposed at its first separator. -/
lemma splitFirst_append {sep : Char} {a : List Char} (b : List Char) (ha : sep ∉ a) :
    splitFirst sep (a ++ sep :: b) = some (a, b) := by
  induction a with
  | nil => simp [splitFirst]
  | cons c t ih =>
    simp only [List.mem_cons, not_or] at ha
    rw [List.cons_append]
    unfold splitFirst
    rw [if_neg (fun h => ha.1 h.symm)]
    rw [ih ha.2]
    rfl

/-- A list without the separator does not split. -/
lemma splitFirst_of_not_mem {sep : Char} {l : List Char} (h : sep ∉ l) :
    splitFirst sep l = none := by
  induction l with
  | nil => rfl
  | cons c rest ih =>
    simp only [List.mem_cons, not_or] at h
    unfold splitFirst
    rw [if_neg (fun hh => h.1 hh.symm), ih h.2]
    rfl

/-- The underscore is not an ASCII digit. -/
lemma underscore_not_digit : isAsciiDigit '_' = false := by decide

/-- The code's first-underscore date handling agrees everywhere with the
specification's begins-with-a-date-prefix reading. -/
lemma dateSplit_eq_prefix (name : List Char) : dateSplit name = dateSplitPrefix name := by
  by_cases hcond : ((name.take 8).length == 8 && (name.take 8).all isAsciiDigit &&
      ((name.drop 8).head? == some '_')) = true
  · simp only [Bool.and_eq_true, beq_iff_eq] at hcond
    obtain ⟨⟨hlen, hdig⟩, hhd⟩ := hcond
    have hhd' : (name.drop 8).head? = some '_' := by simpa using hhd
    have hdrop : name.drop 8 = '_' :: name.drop 9 := by
      cases hd : name.drop 8 with
      | nil => rw [hd] at hhd'; cases hhd'
      | cons d rest =>
        rw [hd] at hhd'
        simp only [List.head?_cons, Option.some.injEq] at hhd'
        subst hhd'
        have : rest = name.drop 9 := by
          have := List.tail_drop name 8
          rw [hd] at this
          simpa using this
        rw [this]
    have hdecomp : name = name.take 8 ++ '_' :: name.drop 9 := by
      conv_lhs => rw [← List.take_append_drop 8 name]
      rw [hdrop]
    have hnotmem : '_' ∉ name.take 8 := by
      intro hmem
      have := List.all_eq_true.mp hdig '_' hmem
      rw [underscore_not_digit] at this
      cases this
    have hsf : splitFirst '_' name = some (name.take 8, name.drop 9) := by
      conv_lhs => rw [hdecomp]
      exact splitFirst_append _ hnotmem
    unfold dateSplit dateSplitPrefix
    rw [hsf]
    have hne : (name.take 8).isEmpty = false := by
      cases hh : name.take 8 with
      | nil => rw [hh] at hlen; cases hlen
      | cons x xs => rfl
    simp [hne, hdig, hlen, hhd']
  · unfold dateSplit dateSplitPrefix
    rw [if_neg (by exact fun hh => hcond hh)]
    cases hsf : splitFirst '_' name with
    | none => rfl
    | some pr =>
      obtain ⟨p1, p2⟩ := pr
      obtain ⟨hdec, hnm⟩ := splitFirst_some hsf
      by_cases hok : (!p1.isEmpty && p1.all isAsciiDigit && p1.length == 8) = true
      · exfalso
        apply hcond
        simp only [Bool.and_eq_true, beq_iff_eq, Bool.not_eq_true'] at hok
        obtain ⟨⟨hne, hdig⟩, hlen⟩ := hok
        have htake : name.take 8 = p1 := by
          rw [hdec]
          exact List.take_left' hlen
        have hdrop : name.drop 8 = '_' :: p2 := by
          rw [hdec]
          exact List.drop_left' hlen
        simp [htake, hdrop, hdig, hlen]
      · simp [hok]

/-- Replacing a pattern that does not occur is the identity. -/
lemma replaceAll_of_not_contains {pat rep : List Char} : ∀ {l : List Char},
    containsSub pat l = false → replaceAll pat rep l = l := by
  intro l
  induction l with
  | nil => intro _; rfl
  | cons c rest ih =>
    intro h
    simp only [containsSub, Bool.or_eq_false_iff] at h
    unfold replaceAll replaceAllAux
    rw [h.1]
    simp only [Bool.and_false, Bool.false_eq_true, if_false]
    exact congrArg (c :: ·) (ih h.2)

/-- Reading just past an appended copy of position `j` gives the same value
as position `j` itself, whether or not `j` was in range. -/
lemma getD_append_self (l : List DataFrame) (j : Nat) :
    (l ++ [l.getD j emptyDF]).getD j emptyDF = l.getD j emptyDF := by
  rcases lt_trichotomy j l.length with h | h | h
  · rw [List.getD_append _ _ _ _ h]
  · rw [List.getD_append_right _ _ _ _ (le_of_eq h.symm), h]
    simp
  · rw [List.getD_append_right _ _ _ _ (le_of_lt h)]
    rw [List.getD_eq_getElem?_getD, List.getD_eq_getElem?_getD]
    rw [List.getElem?_eq_none (by simp; omega), List.getElem?_eq_none (by omega)]

/-- Reading a list at the length of its front part gives the first appended
element. -/
lemma getD_at_length (l : List DataFrame) (x : DataFrame) (r : List DataFrame)
    (d : DataFrame) : (l ++ x :: r).getD l.length d = x := by
  rw [List.getD_append_right _ _ _ _ (le_refl _)]
  simp

/-- Reading a list one past the length of its front part gives the second
appended element. -/
lemma getD_at_length_succ (l : List DataFrame) (x y : DataFrame) (r : List DataFrame)
    (d : DataFrame) : (l ++ x :: y :: r).getD (l.length + 1) d = y := by
  rw [List.getD_append_right _ _ _ _ (by omega)]
  simp

/-- Setting one heap cell does not change reads of another. -/
lemma getD_set_ne (l : List DataFrame) (i j : Nat) (h : i ≠ j) (x d : DataFrame) :
    (l.set i x).getD j d = l.getD j d := by
  rw [List.getD_eq_getElem?_getD, List.getD_eq_getElem?_getD, List.getElem?_set_ne h]

/-- Totality of the lexicographic file order. -/
lemma lexLe_total : ∀ (a b : List Char), lexLe a b = true ∨ lexLe b a = true := by
  intro a
  induction a with
  | nil => intro b; left; rfl
  | cons x s ih =>
    intro b
    cases b with
    | nil => right; rfl
    | cons y t =>
      by_cases hxy : x.toNat < y.toNat
      · left; simp [lexLe, hxy]
      · by_cases hyx : y.toNat < x.toNat
        · right; simp [lexLe, hyx]
        · rcases ih t with h | h
          · left; simp [lexLe, hxy, hyx, h]
          · right; simp [lexLe, hxy, hyx, h]

/-- Transitivity of the lexicographic file order. -/
lemma lexLe_trans : ∀ (a b c : List Char), lexLe a b = true → lexLe b c = true →
    lexLe a c = true := by
  intro a
  induction a with
  | nil => intro b c _ _; rfl
  | cons x s ih =>
    intro b c h1 h2
    cases b with
    | nil => simp [lexLe] at h1
    | cons y t =>
      cases c with
      | nil => simp [lexLe] at h2
      | cons z u =>
        by_cases hxy : x.toNat < y.toNat
        · by_cases hyz : y.toNat < z.toNat
          · simp [lexLe, show x.toNat < z.toNat by omega]
          · have hzy : ¬ z.toNat < y.toNat := by
              intro hzy
              simp [lexLe, hyz, hzy] at h2
            simp [lexLe, show x.toNat < z.toNat by omega]
        · have hyx : ¬ y.toNat < x.toNat := by
            intro hyx
            simp [lexLe, hxy, hyx] at h1
          have hst : lexLe s t = true := by simpa [lexLe, hxy, hyx] using h1
          by_cases hyz : y.toNat < z.toNat
          · simp [lexLe, show x.toNat < z.toNat by omega]
          · have hzy : ¬ z.toNat < y.toNat := by
              intro hzy
              simp [lexLe, hyz, hzy] at h2
            have htu : lexLe t u = true := by simpa [lexLe, hyz, hzy] using h2
            have hxz : ¬ x.toNat < z.toNat := by omega
            have hzx : ¬ z.toNat < x.toNat := by omega
            simp [lexLe, hxz, hzx, ih t u hst htu]

instance instTotalFileLe : IsTotal String fileLe :=
  ⟨fun a b => lexLe_total a.toList b.toList⟩

instance instTransFileLe : IsTrans String fileLe :=
  ⟨fun a b c => lexLe_trans a.toList b.toList c.toList⟩

/-- Membership characterization of one catalog scan. -/
lemma mem_discoverScan {listing : Option (List String)} {cat : String}
    {e : String × String × String} :
    e ∈ discoverScan listing cat ↔
      ∃ names, listing = some names ∧ ∃ fl ∈ names, tsvExt.isSuffixOf fl.toList = true ∧
        e = (fl, cat, clean_display_name ⟨splitextRoot fl.toList⟩) := by
  cases listing with
  | none => simp [discoverScan]
  | some names =>
    simp only [discoverScan, List.mem_map, (List.perm_insertionSort fileLe _).mem_iff,
      List.mem_filter, Option.some.injEq]
    constructor
    · rintro ⟨fl, ⟨hfl, hsuf⟩, rfl⟩
      exact ⟨names, rfl, fl, hfl, hsuf, rfl⟩
    · rintro ⟨names', hn, fl, hfl, hsuf, rfl⟩
      cases hn
      exact ⟨fl, ⟨hfl, hsuf⟩, rfl⟩

/-- Every entry of one catalog scan carries that scan's category tag. -/
lemma discoverScan_cat {listing : Option (List String)} {cat : String} :
    ∀ e ∈ discoverScan listing cat, e.2.1 = cat := by
  intro e he
  obtain ⟨_, _, fl, _, _, rfl⟩ := mem_discoverScan.mp he
  rfl

/-- Each catalog scan lists its files in sorted order. -/
lemma discoverScan_sorted (listing : Option (List String)) (cat : String) :
    List.Pairwise (fun x y => fileLe x.1 y.1) (discoverScan listing cat) := by
  cases listing with
  | none => simp [discoverScan]
  | some names =>
    unfold discoverScan
    rw [List.pairwise_map]
    exact List.sorted_insertionSort fileLe _

/-- A three-element list with a repeated element dedups to fewer than three. -/
lemma dedup_len_ne_three {α : Type} [DecidableEq α] (x y z : α)
    (h : x = y ∨ x = z ∨ y = z) : [x, y, z].dedup.length ≠ 3 := by
  intro hlen
  have hsub := List.dedup_sublist [x, y, z]
  have heq : [x, y, z].dedup = [x, y, z] := hsub.eq_of_length (by simpa using hlen)
  have hnd := List.nodup_dedup [x, y, z]
  rw [heq] at hnd
  simp [List.nodup_cons] at hnd
  tauto

/-- C1 (amended): for any two successfully loaded tables,
`merge_comparisons` returns the inner join and the gene identifier of every
merged row appears in both inputs (rows whose gene is not in both are
dropped) — both unconditionally; and when the gene identifiers are pairwise
distinct within each input table, the row count of the join is at most the
minimum of the two input row counts. Without the distinctness condition the
row-count bound fails, see `merge_rowcount_counterexample`. -/
theorem merge_comparisons_inner_join (fs : FS) (cache : Cache) (p1 p2 : String)
    (df1 : DataFrame) (c1 : Cache) (df2 : DataFrame) (c2 : Cache)
    (h1 : load_deseq2_file fs cache p1 true = .ok (df1, c1))
    (h2 : load_deseq2_file fs c1 p2 true = .ok (df2, c2)) :
    merge_comparisons fs cache p1 p2 = .ok (innerMergeRows df1.rows df2.rows, c2) ∧
    (∀ pr ∈ innerMergeRows df1.rows df2.rows,
      pr.1.gene_symbol = pr.2.gene_symbol ∧
      pr.1.gene_symbol ∈ df1.rows.map Row.gene_symbol ∧
      pr.2.gene_symbol ∈ df2.rows.map Row.gene_symbol) ∧
    ((df1.rows.map Row.gene_symbol).Nodup → (df2.rows.map Row.gene_symbol).Nodup →
      (innerMergeRows df1.rows df2.rows).length ≤ min df1.rows.length df2.rows.length) := by
  refine ⟨?_, ?_, ?_⟩
  · simp only [merge_comparisons, h1, h2]
  · intro pr hpr
    simp only [innerMergeRows, List.mem_flatMap, List.mem_map, List.mem_filter] at hpr
    obtain ⟨a, ha, b, ⟨hb, hbg⟩, hab⟩ := hpr
    have hge : b.gene_symbol = a.gene_symbol := by simpa using hbg
    subst hab
    exact ⟨hge.symm, List.mem_map_of_mem Row.gene_symbol ha,
      List.mem_map_of_mem Row.gene_symbol hb⟩
  · intro hn1 hn2
    exact le_min (innerMergeRows_length_le_left df1.rows df2.rows hn2)
      (innerMergeRows_length_le_right df1.rows df2.rows hn1)

/-- C1 (counterexample to the claim as stated): with a duplicated gene
identifier in both two-row inputs, the merge has four rows, exceeding the
minimum input row count. -/
theorem merge_rowcount_counterexample :
    load_deseq2_file fsFix [] pDup1 true = .ok (dfDup, [(pDup1, dfDup)]) ∧
    load_deseq2_file fsFix [(pDup1, dfDup)] pDup2 true =
      .ok (dfDup, [(pDup2, dfDup), (pDup1, dfDup)]) ∧
    merge_comparisons fsFix [] pDup1 pDup2 =
      .ok (innerMergeRows dfDup.rows dfDup.rows, [(pDup2, dfDup), (pDup1, dfDup)]) ∧
    dfDup.rows.length = 2 ∧
    (innerMergeRows dfDup.rows dfDup.rows).length = 4 ∧
    ¬((innerMergeRows dfDup.rows dfDup.rows).length ≤
        min dfDup.rows.length dfDup.rows.length) := by decide

/-- C1 witness: the merge theorem applied to two concrete loadable tables,
with the distinctness condition of the row-count part discharged as well. -/
theorem merge_comparisons_inner_join_witness :
    load_deseq2_file fsFix [] pScen true = .ok (dfScen, cacheScen) ∧
    load_deseq2_file fsFix cacheScen pOther true =
      .ok (dfOther, [(pOther, dfOther), (pScen, dfScen)]) ∧
    (merge_comparisons fsFix [] pScen pOther =
        .ok (innerMergeRows dfScen.rows dfOther.rows, [(pOther, dfOther), (pScen, dfScen)]) ∧
      (∀ pr ∈ innerMergeRows dfScen.rows dfOther.rows,
        pr.1.gene_symbol = pr.2.gene_symbol ∧
        pr.1.gene_symbol ∈ dfScen.rows.map Row.gene_symbol ∧
        pr.2.gene_symbol ∈ dfOther.rows.map Row.gene_symbol) ∧
      ((dfScen.rows.map Row.gene_symbol).Nodup → (dfOther.rows.map Row.gene_symbol).Nodup →
        (innerMergeRows dfScen.rows dfOther.rows).length ≤
          min dfScen.rows.length dfOther.rows.length)) ∧
    (innerMergeRows dfScen.rows dfOther.rows).length ≤
      min dfScen.rows.length dfOther.rows.length :=
  ⟨by decide, by decide,
    merge_comparisons_inner_join fsFix [] pScen pOther dfScen cacheScen dfOther
      [(pOther, dfOther), (pScen, dfScen)] (by decide) (by decide),
    (merge_comparisons_inner_join fsFix [] pScen pOther dfScen cacheScen dfOther
      [(pOther, dfOther), (pScen, dfScen)] (by decide) (by decide)).2.2
      (by decide) (by decide)⟩

/-- C2: on any table obtained by a successful load, `extract_degs` returns
exactly the gene identifiers of rows whose significance cell (from `padj` if
that column is present, else from `pvalue` if present, else no rows) is
present and strictly below the significance threshold and whose fold-change
cell is present with absolute value strictly above the fold-change threshold;
the literal missing-marker "nan" is excluded from the output. -/
theorem extract_degs_characterization (fs : FS) (cache : Cache) (path : String)
    (t1 t2 : ℚ) (df : DataFrame) (c' : Cache)
    (h : load_deseq2_file fs cache path true = .ok (df, c')) :
    ∃ S, extract_degs fs cache path t1 t2 = .ok (S, c') ∧
      ∀ g, g ∈ S ↔
        (g ≠ nanStr ∧ ∃ r ∈ df.rows, r.gene_symbol = g ∧
          ((df.cols.contains col_padj = true ∧
             (∃ p, r.padj = some p ∧ p < t1) ∧
             (∃ l, r.log2FoldChange = some l ∧ t2 < |l|)) ∨
           (df.cols.contains col_padj = false ∧ df.cols.contains col_pvalue = true ∧
             (∃ p, r.pvalue = some p ∧ p < t1) ∧
             (∃ l, r.log2FoldChange = some l ∧ t2 < |l|)))) := by
  refine ⟨_, by unfold extract_degs; rw [h], ?_⟩
  intro g
  by_cases hpadj : df.cols.contains col_padj
  · simp only [hpadj, if_true, List.mem_toFinset, List.mem_filter, List.mem_map,
      bne_iff_ne, degMask_eq_true, Bool.true_eq_false, false_and, false_or, or_false,
      true_and]
    constructor
    · rintro ⟨⟨r, ⟨hr, hq1, hq2⟩, hg⟩, hnan⟩
      exact ⟨hnan, r, hr, hg, hq1, hq2⟩
    · rintro ⟨hnan, r, hr, hg, hq1, hq2⟩
      exact ⟨⟨r, ⟨hr, hq1, hq2⟩, hg⟩, hnan⟩
  · by_cases hpv : df.cols.contains col_pvalue
    · simp only [hpadj, hpv, if_true, if_false, Bool.false_eq_true, false_and, false_or,
        List.mem_toFinset, List.mem_filter, List.mem_map, bne_iff_ne, degMask_eq_true,
        true_and]
      constructor
      · rintro ⟨⟨r, ⟨hr, hq1, hq2⟩, hg⟩, hnan⟩
        exact ⟨hnan, r, hr, hg, hq1, hq2⟩
      · rintro ⟨hnan, r, hr, hg, hq1, hq2⟩
        exact ⟨⟨r, ⟨hr, hq1, hq2⟩, hg⟩, hnan⟩
    · simp only [hpadj, hpv, if_false, Bool.false_eq_true, false_and, false_or,
        List.filter_nil, List.toFinset_nil, Finset.not_mem_empty, false_iff,
        and_false, not_and, not_exists]
      tauto

/-- C2 witness: the extraction theorem at the scenario table, where gene X
(padj 0.01, fold change 2) qualifies under thresholds (0.05, 1) and gene Y
(padj 0.2) does not. -/
theorem extract_degs_characterization_witness :
    load_deseq2_file fsFix [] pScen true = .ok (dfScen, cacheScen) ∧
    (∃ S, extract_degs fsFix [] pScen (mkRat 1 20) 1 = .ok (S, cacheScen) ∧
      ∀ g, g ∈ S ↔
        (g ≠ nanStr ∧ ∃ r ∈ dfScen.rows, r.gene_symbol = g ∧
          ((dfScen.cols.contains col_padj = true ∧
             (∃ p, r.padj = some p ∧ p < mkRat 1 20) ∧
             (∃ l, r.log2FoldChange = some l ∧ 1 < |l|)) ∨
           (dfScen.cols.contains col_padj = false ∧
             dfScen.cols.contains col_pvalue = true ∧
             (∃ p, r.pvalue = some p ∧ p < mkRat 1 20) ∧
             (∃ l, r.log2FoldChange = some l ∧ 1 < |l|))))) :=
  ⟨by decide,
    extract_degs_characterization fsFix [] pScen (mkRat 1 20) 1 dfScen cacheScen (by decide)⟩

/-- C3: loading the same path twice hands out field-for-field identical
tables held in distinct heap cells, and mutating the first returned object in
place does not change the second (the cache stores and hands out independent
copies). -/
theorem load_heap_independent_copies (fs : FS) (s0 : HeapState) (path : String)
    (f : DataFrame → DataFrame) (i1 : Nat) (s1 : HeapState) (i2 : Nat) (s2 : HeapState)
    (h1 : load_deseq2_file_heap fs s0 path = .ok (i1, s1))
    (h2 : load_deseq2_file_heap fs s1 path = .ok (i2, s2)) :
    s2.cells.getD i1 emptyDF = s2.cells.getD i2 emptyDF ∧
    i1 ≠ i2 ∧
    (mutateCell s2 i1 f).cells.getD i2 emptyDF = s2.cells.getD i2 emptyDF := by
  obtain ⟨cells0, idx0⟩ := s0
  unfold load_deseq2_file_heap at h1
  cases hq : List.lookup path idx0 with
  | some j =>
    simp only [hq] at h1
    cases h1
    unfold load_deseq2_file_heap at h2
    simp only [hq] at h2
    cases h2
    refine ⟨?_, by simp, ?_⟩
    · rw [getD_at_length, List.getD_append _ _ _ _ (by simp), getD_at_length,
        getD_append_self]
    · apply getD_set_ne
      simp
  | none =>
    simp only [hq] at h1
    cases hfs : fs path with
    | none => simp only [hfs] at h1; cases h1
    | some raw =>
      simp only [hfs] at h1
      by_cases hm : (required_cols.filter (fun c => !(raw.cols.contains c))).isEmpty = true
      · rw [if_pos hm] at h1
        cases h1
        unfold load_deseq2_file_heap at h2
        simp only [List.lookup_cons, beq_self_eq_true] at h2
        cases h2
        refine ⟨?_, by simp, ?_⟩
        · rw [getD_at_length_succ, getD_at_length,
            List.getD_append _ _ _ _ (by simp), getD_at_length]
        · apply getD_set_ne
          simp
      · rw [if_neg hm] at h1
        cases h1

/-- C3 witness: the copy-independence theorem at a concrete file loaded twice
from the empty heap, probed with a destructive mutation. -/
theorem load_heap_independent_copies_witness :
    load_deseq2_file_heap fsFix heap0 pScen = .ok (0, heap1) ∧
    load_deseq2_file_heap fsFix heap1 pScen = .ok (2, heap2) ∧
    (heap2.cells.getD 0 emptyDF = heap2.cells.getD 2 emptyDF ∧
      (0 : Nat) ≠ 2 ∧
      (mutateCell heap2 0 wipeDF).cells.getD 2 emptyDF = heap2.cells.getD 2 emptyDF) :=
  ⟨by decide, by decide,
    load_heap_independent_copies fsFix heap0 pScen wipeDF 0 heap1 2 heap2
      (by decide) (by decide)⟩

/-- C4: for any DEG sets, the two-way overlap partition (only-A, only-B,
both) is pairwise disjoint with union A union B, and the three-way partition
(three exclusive parts, three pairwise-minus-third parts, one triple part) is
pairwise disjoint with union A union B union C, the triple part being exactly
the triple intersection. -/
theorem venn_overlaps_partition (A B C : Finset String) :
    (List.Pairwise Disjoint
        [(venn2_overlaps A B).only_1, (venn2_overlaps A B).only_2, (venn2_overlaps A B).overlap] ∧
      (venn2_overlaps A B).only_1 ∪ (venn2_overlaps A B).only_2 ∪ (venn2_overlaps A B).overlap
        = A ∪ B) ∧
    (List.Pairwise Disjoint
        [(venn3_overlaps A B C).only_1, (venn3_overlaps A B C).only_2,
          (venn3_overlaps A B C).only_3, (venn3_overlaps A B C).overlap_12,
          (venn3_overlaps A B C).overlap_13, (venn3_overlaps A B C).overlap_23,
          (venn3_overlaps A B C).overlap_all] ∧
      (venn3_overlaps A B C).only_1 ∪ (venn3_overlaps A B C).only_2 ∪
          (venn3_overlaps A B C).only_3 ∪ (venn3_overlaps A B C).overlap_12 ∪
          (venn3_overlaps A B C).overlap_13 ∪ (venn3_overlaps A B C).overlap_23 ∪
          (venn3_overlaps A B C).overlap_all = A ∪ B ∪ C ∧
      (venn3_overlaps A B C).overlap_all = A ∩ B ∩ C) := by
  simp only [venn2_overlaps, venn3_overlaps, List.pairwise_cons, List.mem_cons,
    List.mem_singleton, List.not_mem_nil, or_false, forall_eq_or_imp, forall_eq,
    IsEmpty.forall_iff, implies_true, forall_const, true_and, and_true]
  repeat' apply And.intro
  all_goals
    first
      | (rw [Finset.disjoint_left]; intro x hx hy;
         simp only [Finset.mem_sdiff, Finset.mem_inter] at hx hy; tauto)
      | (ext x;
         simp only [Finset.mem_union, Finset.mem_sdiff, Finset.mem_inter]; tauto)
      | exact List.Pairwise.nil

/-- C5 (amended): the catalog display name is computed by removing every
occurrence of "_results" (the claim's trailing-suffix strip is amended to an
everywhere-removal), reformatting a leading 8-digit date prefix followed by
an underscore as "YYYY-MM-DD: ", rewriting "_vs_" to " vs " and remaining
underscores to spaces, and truncating to 52 characters plus "..." when the
result exceeds 55 characters; in particular the scenario file
"20240101_treated_vs_control_results.tsv" maps to
"2024-01-01: treated vs control". -/
theorem clean_display_name_amended_correct (name : List Char) :
    clean_display_name_chars name = clean_display_name_amended name ∧
    clean_display_name ⟨splitextRoot ("20240101_treated_vs_control_results.tsv".toList)⟩ =
      "2024-01-01: treated vs control" := by
  constructor
  · unfold clean_display_name_chars clean_display_name_amended
    by_cases hc : containsSub resultsPat name = true
    · simp only [hc, if_true, dateSplit_eq_prefix]
    · have hc' : containsSub resultsPat name = false := by
        revert hc; cases containsSub resultsPat name <;> simp
      simp only [hc', Bool.false_eq_true, if_false, dateSplit_eq_prefix,
        replaceAll_of_not_contains hc']
  · decide

/-- C5 (counterexample to the claim as stated): on the stem "a_results_b" the
code removes the inner "_results" and yields "a b", while the claim's
trailing-suffix derivation yields "a results b". -/
theorem clean_display_name_claim_counterexample :
    clean_display_name_chars ("a_results_b".toList) ≠
      clean_display_name_claimed ("a_results_b".toList) := by decide

/-- C6: on a path not held in the cache, the loader fails with the
not-found error exactly when the path does not exist, and on an existing file
it fails with the schema error exactly when the gene-identifier or
fold-change column is absent from the header; a success therefore implies the
path exists with both required columns present. -/
theorem load_error_contract (fs : FS) (cache : Cache) (path : String)
    (hnc : List.lookup path cache = none) :
    (load_deseq2_file fs cache path true = .error .notFound ↔ fs path = none) ∧
    (∀ raw, fs path = some raw →
      (load_deseq2_file fs cache path true = .error .schemaError ↔
        (col_gene ∉ raw.cols ∨ col_lfc ∉ raw.cols))) := by
  unfold load_deseq2_file
  rw [if_pos rfl, hnc]
  constructor
  · cases hfs : fs path with
    | none => simp
    | some raw =>
      simp only [hfs]
      constructor
      · intro hcontra
        split at hcontra <;> cases hcontra
      · intro hcontra; cases hcontra
  · intro raw hfs
    simp only [hfs]
    by_cases hg : raw.cols.contains col_gene <;> by_cases hl : raw.cols.contains col_lfc <;>
      simp_all [required_cols, List.filter]

/-- C6 witness: the loader contract applied to the fixture file whose header
lacks the fold-change column. -/
theorem load_error_contract_witness :
    List.lookup pBad ([] : Cache) = none ∧
    ((load_deseq2_file fsFix [] pBad true = .error .notFound ↔ fsFix pBad = none) ∧
      (∀ raw, fsFix pBad = some raw →
        (load_deseq2_file fsFix [] pBad true = .error .schemaError ↔
          (col_gene ∉ raw.cols ∨ col_lfc ∉ raw.cols)))) :=
  ⟨rfl, load_error_contract fsFix [] pBad rfl⟩

/-- C7: the Venn callback returns a validation alert (and no partition data)
whenever the first or second selection is missing, or the two selections of a
two-way comparison are equal, or any two selections of a three-way comparison
are equal. -/
theorem update_venn_diagram_rejects (fs : FS) (cache : Cache) (n : Nat)
    (p1 p2 p3 : Option String) (fdr lfc : Option ℚ)
    (h : isFalsyStr p1 = true ∨ isFalsyStr p2 = true ∨
      (n = 2 ∧ p1 = p2) ∨
      (n = 3 ∧ (p1 = p2 ∨ p1 = p3 ∨ p2 = p3))) :
    ∃ msg, update_venn_diagram fs cache n p1 p2 fdr lfc p3 = .reject msg := by
  rcases h with h1 | h2 | ⟨hn, hd⟩ | ⟨hn, hd⟩
  · exact ⟨msgAtLeastTwo, by simp [update_venn_diagram, h1]⟩
  · exact ⟨msgAtLeastTwo, by simp [update_venn_diagram, h2]⟩
  · subst hn
    by_cases h1 : isFalsyStr p1
    · exact ⟨msgAtLeastTwo, by simp [update_venn_diagram, h1]⟩
    by_cases h2 : isFalsyStr p2
    · exact ⟨msgAtLeastTwo, by simp [update_venn_diagram, h2]⟩
    · exact ⟨msgTwoDifferent, by simp [update_venn_diagram, h1, h2, hd]⟩
  · subst hn
    by_cases h1 : isFalsyStr p1
    · exact ⟨msgAtLeastTwo, by simp [update_venn_diagram, h1]⟩
    by_cases h2 : isFalsyStr p2
    · exact ⟨msgAtLeastTwo, by simp [update_venn_diagram, h2]⟩
    by_cases h3 : isFalsyStr p3
    · exact ⟨msgAllThree, by simp [update_venn_diagram, h1, h2, h3]⟩
    · refine ⟨msgThreeDifferent, ?_⟩
      have hdd := dedup_len_ne_three p1 p2 p3 hd
      simp [update_venn_diagram, h1, h2, h3, hdd]

/-- C7 witness: the rejection theorem applied to a duplicate two-way
selection. -/
theorem update_venn_diagram_rejects_witness :
    (isFalsyStr (some pScen) = true ∨ isFalsyStr (some pScen) = true ∨
      ((2 : Nat) = 2 ∧ (some pScen : Option String) = some pScen) ∨
      ((2 : Nat) = 3 ∧ ((some pScen : Option String) = some pScen ∨
        (some pScen : Option String) = some pOther ∨
        (some pScen : Option String) = some pOther))) ∧
    ∃ msg, update_venn_diagram fsFix [] 2 (some pScen) (some pScen) none none
      (some pOther) = .reject msg :=
  ⟨Or.inr (Or.inr (Or.inl ⟨rfl, rfl⟩)),
    update_venn_diagram_rejects fsFix [] 2 (some pScen) (some pScen) (some pOther)
      none none (Or.inr (Or.inr (Or.inl ⟨rfl, rfl⟩)))⟩

/-- C8: the catalog consists only of primary- and secondary-tagged entries,
every primary entry precedes every secondary entry, entries of one category
are sorted lexicographically by filename, only files with the ".tsv"
extension are listed (exactly those present in the scanned listing), and a
missing directory contributes no entries of its category and raises no
error. -/
theorem discover_deseq2_files_correct (primaryDir secondaryDir : Option (List String)) :
    (∀ e ∈ discover_deseq2_files primaryDir secondaryDir,
        e.2.1 = catPrimary ∨ e.2.1 = catSecondary) ∧
    List.Pairwise (fun x y => ¬(x.2.1 = catSecondary ∧ y.2.1 = catPrimary))
      (discover_deseq2_files primaryDir secondaryDir) ∧
    List.Pairwise (fun x y => x.2.1 = y.2.1 → fileLe x.1 y.1)
      (discover_deseq2_files primaryDir secondaryDir) ∧
    (∀ e ∈ discover_deseq2_files primaryDir secondaryDir,
        tsvExt.isSuffixOf e.1.toList = true) ∧
    (∀ fp, primaryDir = some fp → ∀ fl,
      ((fl, catPrimary, clean_display_name ⟨splitextRoot fl.toList⟩) ∈
          discover_deseq2_files primaryDir secondaryDir ↔
        (fl ∈ fp ∧ tsvExt.isSuffixOf fl.toList = true))) ∧
    (∀ fsd, secondaryDir = some fsd → ∀ fl,
      ((fl, catSecondary, clean_display_name ⟨splitextRoot fl.toList⟩) ∈
          discover_deseq2_files primaryDir secondaryDir ↔
        (fl ∈ fsd ∧ tsvExt.isSuffixOf fl.toList = true))) ∧
    (primaryDir = none →
      ∀ e ∈ discover_deseq2_files primaryDir secondaryDir, e.2.1 ≠ catPrimary) ∧
    (secondaryDir = none →
      ∀ e ∈ discover_deseq2_files primaryDir secondaryDir, e.2.1 ≠ catSecondary) := by
  have hPS : catPrimary ≠ catSecondary := by decide
  unfold discover_deseq2_files
  refine ⟨?_, ?_, ?_, ?_, ?_, ?_, ?_, ?_⟩
  · intro e he
    rcases List.mem_append.mp he with h | h
    · exact Or.inl (discoverScan_cat e h)
    · exact Or.inr (discoverScan_cat e h)
  · rw [List.pairwise_append]
    refine ⟨?_, ?_, ?_⟩
    · apply List.pairwise_of_forall_mem_list
      intro x hx y _
      rw [discoverScan_cat x hx]
      exact fun hc => hPS hc.1
    · apply List.pairwise_of_forall_mem_list
      intro x _ y hy
      rw [discoverScan_cat y hy]
      exact fun hc => hPS hc.2.symm
    · intro x hx y _
      rw [discoverScan_cat x hx]
      exact fun hc => hPS hc.1
  · rw [List.pairwise_append]
    refine ⟨?_, ?_, ?_⟩
    · refine (discoverScan_sorted primaryDir catPrimary).imp ?_
      intro a b h _
      exact h
    · refine (discoverScan_sorted secondaryDir catSecondary).imp ?_
      intro a b h _
      exact h
    · intro x hx y hy hc
      rw [discoverScan_cat x hx, discoverScan_cat y hy] at hc
      exact absurd hc hPS
  · intro e he
    rcases List.mem_append.mp he with h | h <;>
      · obtain ⟨_, _, fl, _, hsuf, rfl⟩ := mem_discoverScan.mp h
        exact hsuf
  · intro fp hfp fl
    constructor
    · intro hmem
      rcases List.mem_append.mp hmem with h | h
      · obtain ⟨names, hn, fl', hfl', hsuf, heq⟩ := mem_discoverScan.mp h
        rw [hfp] at hn
        cases hn
        injection heq with h1 h2
        subst h1
        exact ⟨hfl', hsuf⟩
      · obtain ⟨_, _, fl', _, _, heq⟩ := mem_discoverScan.mp h
        injection heq with h1 h2
        injection h2 with h3 h4
        exact absurd h3 hPS
    · rintro ⟨hfl, hsuf⟩
      apply List.mem_append.mpr
      left
      exact mem_discoverScan.mpr ⟨fp, hfp, fl, hfl, hsuf, rfl⟩
  · intro fsd hfsd fl
    constructor
    · intro hmem
      rcases List.mem_append.mp hmem with h | h
      · obtain ⟨_, _, fl', _, _, heq⟩ := mem_discoverScan.mp h
        injection heq with h1 h2
        injection h2 with h3 h4
        exact absurd h3.symm hPS
      · obtain ⟨names, hn, fl', hfl', hsuf, heq⟩ := mem_discoverScan.mp h
        rw [hfsd] at hn
        cases hn
        injection heq with h1 h2
        subst h1
        exact ⟨hfl', hsuf⟩
    · rintro ⟨hfl, hsuf⟩
      apply List.mem_append.mpr
      right
      exact mem_discoverScan.mpr ⟨fsd, hfsd, fl, hfl, hsuf, rfl⟩
  · intro hp e he
    rcases List.mem_append.mp he with h | h
    · rw [hp] at h
      cases h
    · rw [discoverScan_cat e h]
      exact hPS.symm
  · intro hs e he
    rcases List.mem_append.mp he with h | h
    · rw [discoverScan_cat e h]
      exact hPS
    · rw [hs] at h
      cases h

/-- C8 witness: the catalog membership characterization applied to a concrete
primary listing and the file name inside it. -/
theorem discover_deseq2_files_correct_witness :
    ((aTsvName, catPrimary, clean_display_name ⟨splitextRoot aTsvName.toList⟩) ∈
        discover_deseq2_files (some dirListP) none ↔
      (aTsvName ∈ dirListP ∧ tsvExt.isSuffixOf aTsvName.toList = true)) :=
  (discover_deseq2_files_correct (some dirListP) none).2.2.2.2.1 dirListP rfl aTsvName

/-- C9: a cached table binding is unchanged by `merge_comparisons` and by
`extract_degs`: both operate on the copies handed out by the loader, so the
only cache modification a successful call performs is adding entries for
previously uncached paths. -/
theorem cache_entries_preserved (fs : FS) (cache : Cache) (pa : String) (d : DataFrame)
    (p1 p2 q : String) (t1 t2 : ℚ) (hp : List.lookup pa cache = some d) :
    (∀ m c', merge_comparisons fs cache p1 p2 = .ok (m, c') → List.lookup pa c' = some d) ∧
    (∀ S c', extract_degs fs cache q t1 t2 = .ok (S, c') → List.lookup pa c' = some d) := by
  constructor
  · intro m c' hm
    unfold merge_comparisons at hm
    cases h1 : load_deseq2_file fs cache p1 true with
    | error e => simp only [h1] at hm; cases hm
    | ok r1 =>
      obtain ⟨df1, c1⟩ := r1
      simp only [h1] at hm
      cases h2 : load_deseq2_file fs c1 p2 true with
      | error e => simp only [h2] at hm; cases hm
      | ok r2 =>
        obtain ⟨df2, c2⟩ := r2
        simp only [h2] at hm
        cases hm
        exact load_preserves_lookup h2 (load_preserves_lookup h1 hp)
  · intro S c' he
    unfold extract_degs at he
    cases h1 : load_deseq2_file fs cache q true with
    | error e => simp only [h1] at he; cases he
    | ok r1 =>
      obtain ⟨df, c⟩ := r1
      simp only [h1] at he
      cases he
      exact load_preserves_lookup h1 hp

/-- C9 witness: the cache-preservation theorem at a concrete cached entry, a
merge that loads one cached and one new file, and an extraction from the new
file. -/
theorem cache_entries_preserved_witness :
    List.lookup pScen cacheScen = some dfScen ∧
    ((∀ m c', merge_comparisons fsFix cacheScen pScen pOther = .ok (m, c') →
        List.lookup pScen c' = some dfScen) ∧
      (∀ S c', extract_degs fsFix cacheScen pOther (mkRat 1 20) 1 = .ok (S, c') →
        List.lookup pScen c' = some dfScen)) :=
  ⟨by decide,
    cache_entries_preserved fsFix cacheScen pScen dfScen pScen pOther pOther
      (mkRat 1 20) 1 (by decide)⟩

/-- C10: the standalone display-name helper returns the stem of the path's
basename unchanged when "_results" does not occur in it; when "_results"
occurs, it returns the part of the stem after the first underscore with every
occurrence of "_results" removed, performing no date reformatting, no
underscore-to-space replacement and no truncation. -/
theorem get_file_display_name_characterization (p : String) :
    (containsSub resultsPat (splitextRoot (basenameChars p.toList)) = false →
      get_file_display_name p = ⟨splitextRoot (basenameChars p.toList)⟩) ∧
    (∀ a b, splitextRoot (basenameChars p.toList) = a ++ '_' :: b → '_' ∉ a →
      containsSub resultsPat (splitextRoot (basenameChars p.toList)) = true →
      get_file_display_name p = ⟨replaceAll resultsPat [] b⟩) := by
  constructor
  · intro h
    unfold get_file_display_name gfdnTransform
    rw [h]
    simp
  · intro a b hdec hna hcont
    unfold get_file_display_name gfdnTransform
    rw [hcont]
    have hsf : splitFirst '_' (splitextRoot (basenameChars p.toList)) = some (a, b) := by
      rw [hdec]
      exact splitFirst_append b hna
    rw [hsf]
    simp

/-- C10 witness: the characterization applied to a concrete path whose stem
is "20240101_foo_results", yielding "foo". -/
theorem get_file_display_name_characterization_witness :
    get_file_display_name pGfdn = ⟨replaceAll resultsPat [] gfdnBack⟩ ∧
    get_file_display_name pGfdn = ⟨"foo".toList⟩ :=
  ⟨(get_file_display_name_characterization pGfdn).2 gfdnFront gfdnBack
      (by decide) (by decide) (by decide),
    by decide⟩
